import Mathlib

/-!
Shallow embedding of `indicator_lookup.py` (stock-analysis).

Conventions of the embedding:
* Instants are absolute `ℤ` seconds since the Unix epoch.  `to_kst_index`
  re-expresses timestamps in the Asia/Seoul zone without changing the
  instant a bar denotes, so timestamp comparisons in the source are
  instant comparisons here; only the civil-date view (`kstDate`) depends
  on the zone.
* Floats are modeled exactly: plain `ℚ` where the source cannot produce
  NaN or infinities, and the four-point type `PF` (finite / NaN / +inf /
  -inf) in the stochastic pipeline where pandas division by zero can.
* A pandas Series is a `List`; positional index `i` corresponds to the
  `i`-th session, and `.loc[ts]` becomes a lookup of the position of `ts`
  among the bar timestamps.
* Date-string parsing (`datetime.strptime(s, "%Y-%m-%d")`) is modeled
  upstream of `compute_for`: the requested date arrives as an already
  validated `CivilDate`; the invalid-format early return is the only
  branch not represented.  Data fetching (`yfinance`) is the external
  collaborator, so the fetched series are parameters.
-/

namespace IndicatorLookup

/-- Civil calendar date (year, month, day), as denoted by a "YYYY-MM-DD"
string accepted by `datetime.strptime`. -/
structure CivilDate where
  year : ℤ
  month : ℤ
  day : ℤ
deriving DecidableEq, Repr

/-- Days since 1970-01-01 of a proleptic-Gregorian civil date (Howard
Hinnant's days-from-civil algorithm); this is the day count a Python
`datetime.date` denotes. -/
def daysFromCivil (c : CivilDate) : ℤ :=
  let y := if c.month ≤ 2 then c.year - 1 else c.year
  let era := Int.fdiv y 400
  let yoe := y - era * 400
  let mp := if c.month ≤ 2 then c.month + 9 else c.month - 3
  let doy := Int.fdiv (153 * mp + 2) 5 + c.day - 1
  let doe := yoe * 365 + Int.fdiv yoe 4 - Int.fdiv yoe 100 + doy
  era * 146097 + doe - 719468

/-- Civil date of a day count (Hinnant's civil-from-days), used for
`timestamp.date().isoformat()`. -/
def civilFromDays (z0 : ℤ) : CivilDate :=
  let z := z0 + 719468
  let era := Int.fdiv z 146097
  let doe := z - era * 146097
  let yoe := Int.fdiv (doe - Int.fdiv doe 1460 + Int.fdiv doe 36524 - Int.fdiv doe 146096) 365
  let y := yoe + era * 400
  let doy := doe - (365 * yoe + Int.fdiv yoe 4 - Int.fdiv yoe 100)
  let mp := Int.fdiv (5 * doy + 2) 153
  let d := doy - Int.fdiv (153 * mp + 2) 5 + 1
  let m := if mp < 10 then mp + 3 else mp - 9
  ⟨if m ≤ 2 then y + 1 else y, m, d⟩

/-- Seconds east of UTC for `ZoneInfo("Asia/Seoul")` (KST has no DST). -/
def kstOffset : ℤ := 9 * 3600

/-- KST civil day number of an absolute instant `t` in seconds: the date
part of the timestamp once re-expressed in KST by `to_kst_index`. -/
def kstDate (t : ℤ) : ℤ := Int.fdiv (t + kstOffset) 86400

/-- Instant of 00:00 KST on civil day `d`; models
`datetime.strptime(date_str, "%Y-%m-%d").replace(tzinfo=KST)`. -/
def midnightKst (d : ℤ) : ℤ := d * 86400 - kstOffset

/-- One OHLC session bar: absolute instant plus the price fields the
script reads (`High`, `Low`, `Close`). -/
structure Bar where
  ts : ℤ
  high : ℚ
  low : ℚ
  close : ℚ
deriving DecidableEq, Repr

/-- Source `last_on_or_before_kst`: KST-index the frame, keep the rows
whose timestamp is `≤ when_kst`, return the last such timestamp (`None`
when nothing qualifies).  The filter compares instants, not civil dates. -/
def last_on_or_before_kst (bars : List Bar) (whenKst : ℤ) : Option ℤ :=
  ((bars.map Bar.ts).filter (fun t => decide (t ≤ whenKst))).getLast?

/-- Source `first_on_or_after_kst`: first timestamp `≥ when_kst`. -/
def first_on_or_after_kst (bars : List Bar) (whenKst : ℤ) : Option ℤ :=
  ((bars.map Bar.ts).filter (fun t => decide (whenKst ≤ t))).head?

/-- Session-resolution switch of `compute_for` (lines 122-131): branches
for "prev", "next", "exact" (membership of the midnight-KST instant in
the index), and a final `else` that behaves like "prev". -/
def resolveTs (align : String) (bars : List Bar) (whenKst : ℤ) : Option ℤ :=
  if align = "prev" then last_on_or_before_kst bars whenKst
  else if align = "next" then first_on_or_after_kst bars whenKst
  else if align = "exact" then
    (if whenKst ∈ bars.map Bar.ts then some whenKst else none)
  else last_on_or_before_kst bars whenKst

/-- Source `close.diff()` without its leading NaN: the day-over-day
changes at positions `1..n-1`. -/
def deltas (close : List ℚ) : List ℚ :=
  (close.zip close.tail).map fun p => p.2 - p.1

/-- Source `delta.clip(lower=0)` on the valid deltas. -/
def wilderGains (close : List ℚ) : List ℚ :=
  (deltas close).map fun d => max d 0

/-- Source `-delta.clip(upper=0)`: negative changes, sign-flipped. -/
def wilderLosses (close : List ℚ) : List ℚ :=
  (deltas close).map fun d => max (-d) 0

/-- Recursive step of `ewm(alpha=a, adjust=False).mean()` after the seed:
`avg[i] = avg[i-1] + a * (x[i] - avg[i-1])`. -/
def ewmFrom (a acc : ℚ) : List ℚ → List ℚ
  | [] => []
  | v :: vs =>
    let acc2 := acc + a * (v - acc)
    acc2 :: ewmFrom a acc2 vs

/-- `ewm(alpha=a, adjust=False).mean()` seeded by the first observation
(Wilder's smoothing; the leading NaN of `diff()` merely delays the seed
to the first valid value, which is handled by the caller's indexing). -/
def wilderSmooth (a : ℚ) : List ℚ → List ℚ
  | [] => []
  | x :: xs => x :: ewmFrom a x xs

/-- Smoothed average gain series of `rsi_wilder` (positions `1..n-1`). -/
def wilderAvgGain (close : List ℚ) (length : ℕ) : List ℚ :=
  wilderSmooth (1 / (length : ℚ)) (wilderGains close)

/-- Smoothed average loss series of `rsi_wilder` (positions `1..n-1`). -/
def wilderAvgLoss (close : List ℚ) (length : ℕ) : List ℚ :=
  wilderSmooth (1 / (length : ℚ)) (wilderLosses close)

/-- Elementwise `rs = avg_gain / avg_loss.replace(0, pd.NA)` followed by
`rsi = 100 - 100/(1+rs)`: a zero average loss makes the entry NA, any
other value gives the closed-form RSI. -/
def rsiCore : List ℚ → List ℚ → List (Option ℚ)
  | g :: gs, l :: ls =>
    (if l = 0 then none else some (100 - 100 / (1 + g / l))) :: rsiCore gs ls
  | _, _ => []

/-- Source `rsi_wilder(close, length)`: same-length output, NaN (here
`none`) at position 0 because `diff()` has no prior value there. -/
def rsi_wilder (close : List ℚ) (length : ℕ) : List (Option ℚ) :=
  match close with
  | [] => []
  | _ :: _ => none :: rsiCore (wilderAvgGain close length) (wilderAvgLoss close length)

/-- Pandas float value: finite, NaN, or a signed infinity.  NaN is the
missing-value marker of the source (`pd.notna` is false exactly on it). -/
inductive PF where
  | val : ℚ → PF
  | nan : PF
  | pinf : PF
  | ninf : PF
deriving DecidableEq, Repr

/-- Float subtraction with NaN/inf propagation. -/
def PF.sub : PF → PF → PF
  | nan, _ => nan
  | _, nan => nan
  | val a, val b => val (a - b)
  | val _, pinf => ninf
  | val _, ninf => pinf
  | pinf, val _ => pinf
  | ninf, val _ => ninf
  | pinf, pinf => nan
  | pinf, ninf => pinf
  | ninf, pinf => ninf
  | ninf, ninf => nan

/-- Float addition with NaN/inf propagation. -/
def PF.add : PF → PF → PF
  | nan, _ => nan
  | _, nan => nan
  | val a, val b => val (a + b)
  | val _, pinf => pinf
  | val _, ninf => ninf
  | pinf, val _ => pinf
  | ninf, val _ => ninf
  | pinf, pinf => pinf
  | pinf, ninf => nan
  | ninf, pinf => nan
  | ninf, ninf => ninf

/-- Float division: a zero divisor yields a signed infinity for a nonzero
numerator and NaN for `0/0`, exactly the numpy behaviour that the claims
about "not infinity" are about. -/
def PF.div : PF → PF → PF
  | nan, _ => nan
  | _, nan => nan
  | val a, val b =>
    if b = 0 then (if 0 < a then pinf else if a < 0 then ninf else nan)
    else val (a / b)
  | val _, pinf => val 0
  | val _, ninf => val 0
  | pinf, val b => if b < 0 then ninf else pinf
  | ninf, val b => if b < 0 then pinf else ninf
  | pinf, pinf => nan
  | pinf, ninf => nan
  | ninf, pinf => nan
  | ninf, ninf => nan

/-- Multiplication by the literal `100` in `percent_k_raw = (...) * 100`. -/
def PF.mul100 : PF → PF
  | val a => val (a * 100)
  | nan => nan
  | pinf => pinf
  | ninf => ninf

/-- Missing-value test (`pd.isna`). -/
def PF.isNan : PF → Bool
  | nan => true
  | _ => false

/-- Trailing window ending at position `i`, of length at most `L`: the
set of rows pandas `rolling(window=L)` aggregates at position `i`. -/
def rollWindow (L i : ℕ) (xs : List α) : List α :=
  (xs.take (i + 1)).drop (i + 1 - L)

/-- `Series.rolling(window=L, min_periods=L).min()` over finite floats:
NaN until a full window is available. -/
def rollingMin (L : ℕ) (xs : List ℚ) : List PF :=
  (List.range xs.length).map fun i =>
    let w := rollWindow L i xs
    if w.length < L then PF.nan
    else
      match w.min? with
      | some m => PF.val m
      | none => PF.nan

/-- `Series.rolling(window=L, min_periods=L).max()` over finite floats. -/
def rollingMax (L : ℕ) (xs : List ℚ) : List PF :=
  (List.range xs.length).map fun i =>
    let w := rollWindow L i xs
    if w.length < L then PF.nan
    else
      match w.max? with
      | some m => PF.val m
      | none => PF.nan

/-- `rolling(window=L, min_periods=L).mean()` over possibly-NaN floats:
NaN entries count as missing, the mean is emitted only when at least `L`
non-NaN entries are in the window, and it averages exactly those. -/
def rollingMeanPF (L : ℕ) (xs : List PF) : List PF :=
  (List.range xs.length).map fun i =>
    let valid := (rollWindow L i xs).filter (fun x => ! x.isNan)
    if valid.length < L then PF.nan
    else (valid.foldl PF.add (PF.val 0)).div (PF.val (valid.length : ℚ))

/-- Raw stochastic line of `stochastic_oscillator`:
`(Close - low_min) / (high_max - low_min) * 100` with the rolling
extrema at `min_periods = length`. -/
def percentKraw (bars : List Bar) (length : ℕ) : List PF :=
  let lowMin := rollingMin length (bars.map Bar.low)
  let highMax := rollingMax length (bars.map Bar.high)
  let closes := bars.map Bar.close
  (List.range bars.length).map fun i =>
    (((PF.val (closes.getD i 0)).sub (lowMin.getD i PF.nan)).div
      ((highMax.getD i PF.nan).sub (lowMin.getD i PF.nan))).mul100

/-- Source `stochastic_oscillator(df, length, smooth_k, smooth_d)`:
smoothed %K and %D, each a full-window rolling mean of the previous
stage. -/
def stochastic_oscillator (bars : List Bar) (length smooth_k smooth_d : ℕ) :
    List PF × List PF :=
  let percent_k := rollingMeanPF smooth_k (percentKraw bars length)
  let percent_d := rollingMeanPF smooth_d percent_k
  (percent_k, percent_d)

/-- Source `sma(series, window)`:
`series.rolling(window=window, min_periods=window).mean()` over finite
closes — `none` until `window` sessions exist, then the plain mean. -/
def sma (series : List ℚ) (window : ℕ) : List (Option ℚ) :=
  (List.range series.length).map fun i =>
    let w := rollWindow window i series
    if w.length < window then none else some (w.sum / (window : ℚ))

/-- Source `nasdaq_drawdown_at_kst` on an already-fetched benchmark
series: last session at or before the instant, running peak of closes up
to it, drawdown percentage, `None` on a zero peak or no session. -/
def nasdaq_drawdown_at_kst (ixic : List Bar) (dateKst : ℤ) : Option ℚ :=
  match last_on_or_before_kst ixic dateKst with
  | none => none
  | some tsK =>
    let closes := (ixic.filter (fun b => decide (b.ts ≤ tsK))).map Bar.close
    match closes.max?, closes.getLast? with
    | some peak, some lastClose =>
      if peak = 0 then none else some ((lastClose / peak - 1) * 100)
    | _, _ => none

/-- Source `us10y_yield_at_kst` on an already-fetched yield series: the
rows are masked by KST civil date (`index.date <= date_kst.date()`), and
the last masked close is returned unchanged — no rescaling. -/
def us10y_yield_at_kst (tnx : List Bar) (dateKst : ℤ) : Option ℚ :=
  if tnx.isEmpty then none
  else ((tnx.filter (fun b => decide (kstDate b.ts ≤ kstDate dateKst))).map Bar.close).getLast?

/-- Nearest integer with ties to even, the rounding of Python's `round`
and of `format(x, '.2f')`. -/
def roundHalfEven (q : ℚ) : ℤ :=
  let f := ⌊q⌋
  let r := q - (f : ℚ)
  if r < 1 / 2 then f
  else if 1 / 2 < r then f + 1
  else if f % 2 = 0 then f else f + 1

/-- Python `round(x, 2)` over exact rationals. -/
def roundTo2 (q : ℚ) : ℚ := (roundHalfEven (q * 100) : ℚ) / 100

/-- Python `round(x, 4)` over exact rationals. -/
def roundTo4 (q : ℚ) : ℚ := (roundHalfEven (q * 10000) : ℚ) / 10000

/-- Two-digit zero padding of day, month and fraction fields. -/
def pad2 (n : ℕ) : String :=
  if n < 10 then "0" ++ toString n else toString n

/-- Four-digit zero padding of the year field of `date.isoformat()`. -/
def pad4 (n : ℤ) : String :=
  let s := toString n.natAbs
  (if n < 0 then "-" else "") ++ String.mk (List.replicate (4 - s.length) '0') ++ s

/-- Python `f"{q:.2f}"` over exact rationals: round half-to-even at two
decimals and render with a forced two-digit fraction. -/
def fmt2 (q : ℚ) : String :=
  let n := roundHalfEven (q * 100)
  let a := n.natAbs
  (if q < 0 then "-" else "") ++ toString (a / 100) ++ "." ++ pad2 (a % 100)

/-- Python `date.isoformat()` of a civil day number. -/
def isoDate (d : ℤ) : String :=
  let c := civilFromDays d
  pad4 c.year ++ "-" ++ pad2 c.month.toNat ++ "-" ++ pad2 c.day.toNat

/-- Canonical "YYYY-MM-DD" rendering of the requested date string. -/
def civilToStr (c : CivilDate) : String :=
  pad4 c.year ++ "-" ++ pad2 c.month.toNat ++ "-" ++ pad2 c.day.toNat

/-- Value of one cell of the result row: a number, a string, Python
`None`, or a float infinity (which `round` passes through). -/
inductive CellVal where
  | num : ℚ → CellVal
  | str : String → CellVal
  | null : CellVal
  | inftyPos : CellVal
  | inftyNeg : CellVal
deriving DecidableEq, Repr

/-- `round(float(x), 2) if pd.notna(x) else None` for an optional value. -/
def optCell2 : Option ℚ → CellVal
  | some v => .num (roundTo2 v)
  | none => .null

/-- `round(float(x), 4) if pd.notna(x) else None` for an optional value. -/
def optCell4 : Option ℚ → CellVal
  | some v => .num (roundTo4 v)
  | none => .null

/-- `round(float(x), 2) if pd.notna(x) else None` for a pandas float:
NaN is the missing marker, infinities round to themselves. -/
def pfCell2 : PF → CellVal
  | .val q => .num (roundTo2 q)
  | .nan => .null
  | .pinf => .inftyPos
  | .ninf => .inftyNeg

/-- Indicator parameters of one batch run (`rsi_len`, `stoch_len`,
`smooth_k`, `smooth_d`, `sma_window`, `align`). -/
structure Params where
  rsi_len : ℕ
  stoch_len : ℕ
  smooth_k : ℕ
  smooth_d : ℕ
  sma_window : ℕ
  align : String
deriving DecidableEq, Repr

/-- Source `compute_for` from date validation onwards: the fetched
primary, yield and benchmark series are the external collaborators and
arrive as parameters.  Empty price data and failed session resolution
short-circuit to an error row; otherwise the full row is assembled in
source order. -/
def compute_for (ticker : String) (reqDate : CivilDate) (p : Params)
    (price tnx ixic : List Bar) : List (String × CellVal) :=
  let dateStr := civilToStr reqDate
  let whenKst := midnightKst (daysFromCivil reqDate)
  if price.isEmpty then
    [("Ticker", .str ticker), ("RequestedDate", .str dateStr),
     ("Error", .str "가격 데이터 없음")]
  else
    match resolveTs p.align price whenKst with
    | none =>
      [("Ticker", .str ticker), ("RequestedDate", .str dateStr),
       ("Error", .str "요청 날짜에 해당/인접 거래일 없음")]
    | some ts =>
      let closes := price.map Bar.close
      let rsi := rsi_wilder closes p.rsi_len
      let kd := stochastic_oscillator price p.stoch_len p.smooth_k p.smooth_d
      let ma200 := sma closes p.sma_window
      let dd := nasdaq_drawdown_at_kst ixic ts
      let y10 := us10y_yield_at_kst tnx ts
      let idx := (price.map Bar.ts).indexOf ts
      let closeTs := closes.getD idx 0
      let maTs := ma200.getD idx none
      let gapPct : Option ℚ :=
        match maTs with
        | some m => if m ≠ 0 then some ((closeTs - m) / m * 100) else none
        | none => none
      [("Ticker", .str ticker),
       ("RequestedDate", .str dateStr),
       ("ReportDate", .str (isoDate (kstDate ts))),
       ("Close", .num (roundTo4 closeTs)),
       ("RSI_" ++ toString p.rsi_len, optCell2 (rsi.getD idx none)),
       ("Stoch%K(" ++ toString p.stoch_len ++ "," ++ toString p.smooth_k ++ ")",
         pfCell2 (kd.1.getD idx PF.nan)),
       ("Stoch%D(" ++ toString p.smooth_d ++ ")", pfCell2 (kd.2.getD idx PF.nan)),
       ("SMA_" ++ toString p.sma_window, optCell4 maTs),
       ("Gap_from_SMA200_%", optCell2 gapPct),
       ("US10Y_Yield_%",
         match y10 with
         | some v => .str (fmt2 v ++ "%")
         | none => .null),
       ("NASDAQ_Drawdown_%", optCell2 dd),
       ("Error", .str "")]

/-- Default indicator parameters of the script. -/
def defaultParams : Params := ⟨14, 14, 3, 3, 200, "prev"⟩

/-- Same parameters with `sma_window = 50`. -/
def smaFiftyParams : Params := ⟨14, 14, 3, 3, 50, "prev"⟩

/-- Session at 00:00 KST on 2024-06-03 (Monday). -/
def sBar1 : Bar := ⟨midnightKst (daysFromCivil ⟨2024, 6, 3⟩), 10, 9, 10⟩

/-- Session at 00:00 KST on 2024-06-05 (Wednesday). -/
def sBar2 : Bar := ⟨midnightKst (daysFromCivil ⟨2024, 6, 5⟩), 11, 10, 11⟩

/-- The spec scenario series: sessions on 2024-06-03 and 2024-06-05 with
2024-06-04 missing. -/
def scenarioSeries : List Bar := [sBar1, sBar2]

/-- Session at 01:00 KST on 2024-06-04: its KST civil date is the
requested 2024-06-04, but its instant is not midnight KST. -/
def lateBar : Bar := ⟨midnightKst (daysFromCivil ⟨2024, 6, 4⟩) + 3600, 10, 9, 10⟩

/-- One fetched reference-yield bar closing at 4.321 on 2024-06-03. -/
def tnxBar : Bar := ⟨midnightKst (daysFromCivil ⟨2024, 6, 3⟩), 5, 4, 4321 / 1000⟩

/-- One-session series (low 0, high 4, close 1) used to instantiate the
stochastic-oscillator bounds: with window 1 its raw %K is 25. -/
def wBars : List Bar := [⟨0, 4, 0, 1⟩]

/-! ### Helper lemmas -/

theorem append_head_ne (a t u : String) (c cu : Char) (ha : a.data.head? = some c)
    (hu : u.data.head? = some cu) (hcc : c ≠ cu) : a ++ t ≠ u := by
  intro h
  apply hcc
  have h2 : (a.data ++ t.data).head? = u.data.head? := by
    rw [← String.data_append, h]
  cases hd : a.data with
  | nil => rw [hd] at ha; cases ha
  | cons x xs =>
    rw [hd] at ha h2
    simp only [List.cons_append, List.head?_cons] at ha h2
    rw [hu] at h2
    injection ha with ha1
    injection h2 with h21
    rw [← ha1]
    exact h21

theorem le_getLast?_of_sorted {xs : List ℤ} (hs : List.Sorted (· < ·) xs) {t : ℤ}
    (h : xs.getLast? = some t) : ∀ u ∈ xs, u ≤ t := by
  rcases List.getLast?_eq_some_iff.1 h with ⟨ys, rfl⟩
  intro u hu
  rcases List.mem_append.1 hu with h1 | h1
  · exact le_of_lt ((List.pairwise_append.1 hs).2.2 u h1 t (List.mem_singleton.2 rfl))
  · exact le_of_eq (List.mem_singleton.1 h1)

theorem getLast?_eq_some_of_sorted : ∀ {xs : List ℤ}, List.Sorted (· < ·) xs → ∀ {t : ℤ},
    t ∈ xs → (∀ u ∈ xs, u ≤ t) → xs.getLast? = some t := by
  intro xs
  induction xs with
  | nil => intro _ t ht _; cases ht
  | cons x xs ih =>
    intro hs t ht hub
    cases xs with
    | nil => simp [List.mem_singleton.1 ht]
    | cons y ys =>
      rw [List.getLast?_cons_cons]
      obtain ⟨hx, hs2⟩ := List.pairwise_cons.1 hs
      have ht2 : t ∈ y :: ys := by
        rcases List.mem_cons.1 ht with rfl | h2
        · exfalso
          have hy := hub y (List.mem_cons_of_mem _ (List.mem_cons_self _ _))
          exact absurd hy (not_le.2 (hx y (List.mem_cons_self _ _)))
        · exact h2
      exact ih hs2 ht2 (fun u hu => hub u (List.mem_cons_of_mem _ hu))

theorem rollWindow_eq_take (L i : ℕ) (xs : List α) (h : L ≤ i + 1) :
    rollWindow L i xs = (xs.drop (i + 1 - L)).take L := by
  unfold rollWindow
  rw [List.drop_take]
  congr 1
  omega

theorem rollWindow_length (L i : ℕ) (xs : List α) (hi : i < xs.length) :
    (rollWindow L i xs).length = min L (i + 1) := by
  unfold rollWindow
  rw [List.length_drop, List.length_take]
  omega

theorem rollWindow_length_le (L i : ℕ) (xs : List α) :
    (rollWindow L i xs).length ≤ L := by
  unfold rollWindow
  rw [List.length_drop, List.length_take]
  omega

theorem mem_of_mem_rollWindow {L i : ℕ} {xs : List α} {x : α}
    (h : x ∈ rollWindow L i xs) : x ∈ xs :=
  List.mem_of_mem_take (List.mem_of_mem_drop h)

theorem rollWindow_map (L i : ℕ) (f : α → β) (xs : List α) :
    rollWindow L i (xs.map f) = (rollWindow L i xs).map f := by
  simp [rollWindow]

theorem getElem_mem_rollWindow (L i : ℕ) (xs : List α) (hL : 1 ≤ L) (hi : i < xs.length) :
    xs[i] ∈ rollWindow L i xs := by
  have h1 : (rollWindow L i xs)[i - (i + 1 - L)]? = some xs[i] := by
    unfold rollWindow
    rw [List.getElem?_drop]
    rw [show i + 1 - L + (i - (i + 1 - L)) = i by omega]
    rw [List.getElem?_take_of_lt (by omega)]
    exact List.getElem?_eq_getElem hi
  exact List.getElem?_mem h1

theorem kstDate_midnightKst (d : ℤ) : kstDate (midnightKst d) = d := by
  unfold kstDate midnightKst kstOffset
  rw [show d * 86400 - 9 * 3600 + 9 * 3600 = d * 86400 by ring]
  exact Int.mul_fdiv_cancel d (by norm_num)

theorem kstDate_mono {s t : ℤ} (h : s ≤ t) : kstDate s ≤ kstDate t := by
  unfold kstDate
  rw [Int.fdiv_eq_ediv _ (by norm_num), Int.fdiv_eq_ediv _ (by norm_num)]
  exact Int.ediv_le_ediv (by norm_num) (by omega)

theorem resolveTs_prev (bars : List Bar) (w : ℤ) :
    resolveTs "prev" bars w = last_on_or_before_kst bars w := rfl

theorem resolveTs_exact (bars : List Bar) (w : ℤ) :
    resolveTs "exact" bars w = if w ∈ bars.map Bar.ts then some w else none := rfl

/-! ### Claim theorems: session alignment (C1, C2, C8) -/

/-- C8: resolving with any alignment-policy string other than "prev",
"next" and "exact" takes the final `else` branch of `compute_for` and
yields exactly the PREV resolution; the function is total, so no error
is raised for the unrecognized string. -/
theorem unknown_align_behaves_prev (a : String) (bars : List Bar) (w : ℤ)
    (h1 : a ≠ "prev") (h2 : a ≠ "next") (h3 : a ≠ "exact") :
    resolveTs a bars w = resolveTs "prev" bars w := by
  unfold resolveTs
  rw [if_neg h1, if_neg h2, if_neg h3, if_pos rfl]

/-- Witness for C8 at the concrete unrecognized policy string "PREV". -/
theorem unknown_align_behaves_prev_w :
    ("PREV" ≠ "prev" ∧ "PREV" ≠ "next" ∧ "PREV" ≠ "exact")
    ∧ resolveTs "PREV" scenarioSeries (midnightKst 19878) =
        resolveTs "prev" scenarioSeries (midnightKst 19878) :=
  ⟨⟨by decide, by decide, by decide⟩,
   unknown_align_behaves_prev "PREV" scenarioSeries (midnightKst 19878)
     (by decide) (by decide) (by decide)⟩

/-- C1 (amended): EXACT resolution succeeds exactly when some session's
instant is precisely midnight KST of the requested date, returning that
midnight instant; a session whose KST calendar date equals the requested
date but whose instant is not midnight KST is not matched.  In the spec
scenario (sessions on 2024-06-03 and 2024-06-05 at midnight KST,
requested date 2024-06-04) EXACT returns NOT_FOUND. -/
theorem exact_resolves_midnight_instant :
    (∀ (bars : List Bar) (d t : ℤ),
      resolveTs "exact" bars (midnightKst d) = some t ↔
        t = midnightKst d ∧ midnightKst d ∈ bars.map Bar.ts)
    ∧ resolveTs "exact" scenarioSeries (midnightKst (daysFromCivil ⟨2024, 6, 4⟩)) = none := by
  constructor
  · intro bars d t
    rw [resolveTs_exact]
    by_cases hm : midnightKst d ∈ bars.map Bar.ts
    · rw [if_pos hm]
      constructor
      · intro h
        exact ⟨(Option.some_inj.1 h).symm, hm⟩
      · intro h
        rw [h.1]
    · rw [if_neg hm]
      constructor
      · intro h
        cases h
      · intro h
        exact absurd h.2 hm
  · decide

/-- C1 counterexample: a series holding one session at 01:00 KST on
2024-06-04, requested date 2024-06-04.  The session's KST calendar date
equals the requested date, yet EXACT returns NOT_FOUND, refuting the
claim that NOT_FOUND occurs only when no session's KST calendar date
equals the requested date. -/
theorem exact_resolves_midnight_instant_cex :
    kstDate lateBar.ts = daysFromCivil ⟨2024, 6, 4⟩
    ∧ resolveTs "exact" [lateBar] (midnightKst (daysFromCivil ⟨2024, 6, 4⟩)) = none := by
  decide

/-- Witness instantiating the C1 amended equivalence at the scenario
series and 2024-06-03, whose session sits exactly at midnight KST. -/
theorem exact_resolves_midnight_instant_w :
    resolveTs "exact" scenarioSeries (midnightKst (daysFromCivil ⟨2024, 6, 3⟩)) =
      some (midnightKst (daysFromCivil ⟨2024, 6, 3⟩)) :=
  (exact_resolves_midnight_instant.1 scenarioSeries (daysFromCivil ⟨2024, 6, 3⟩)
    (midnightKst (daysFromCivil ⟨2024, 6, 3⟩))).mpr ⟨rfl, by decide⟩

/-- C2 (amended): on a series with strictly increasing timestamps, PREV
resolves to `t` exactly when `t` is the greatest session instant that is
`≤` midnight KST (00:00) of the requested date; consequently the
resolved session's KST calendar date never exceeds the requested date.
A session lying on the requested calendar date is eligible only when its
instant is exactly midnight KST — later instants of that same civil date
are not eligible. -/
theorem prev_resolves_latest_le_midnight (bars : List Bar) (d t : ℤ)
    (hs : List.Sorted (· < ·) (bars.map Bar.ts)) :
    (resolveTs "prev" bars (midnightKst d) = some t ↔
      t ∈ bars.map Bar.ts ∧ t ≤ midnightKst d ∧
        ∀ u ∈ bars.map Bar.ts, u ≤ midnightKst d → u ≤ t)
    ∧ (resolveTs "prev" bars (midnightKst d) = some t → kstDate t ≤ d) := by
  have hsl : List.Sorted (· < ·)
      ((bars.map Bar.ts).filter (fun u => decide (u ≤ midnightKst d))) :=
    List.Pairwise.filter _ hs
  have hmain : resolveTs "prev" bars (midnightKst d) = some t ↔
      t ∈ bars.map Bar.ts ∧ t ≤ midnightKst d ∧
        ∀ u ∈ bars.map Bar.ts, u ≤ midnightKst d → u ≤ t := by
    rw [resolveTs_prev]
    unfold last_on_or_before_kst
    constructor
    · intro h
      have ht := List.mem_of_getLast?_eq_some h
      have ht2 := List.mem_filter.1 ht
      refine ⟨ht2.1, of_decide_eq_true ht2.2, fun u hu hle => ?_⟩
      exact le_getLast?_of_sorted hsl h u (List.mem_filter.2 ⟨hu, decide_eq_true hle⟩)
    · rintro ⟨hmem, hle, hub⟩
      apply getLast?_eq_some_of_sorted hsl (List.mem_filter.2 ⟨hmem, decide_eq_true hle⟩)
      intro u hu
      have hu2 := List.mem_filter.1 hu
      exact hub u hu2.1 (of_decide_eq_true hu2.2)
  refine ⟨hmain, fun h => ?_⟩
  have h2 := (hmain.1 h).2.1
  calc kstDate t ≤ kstDate (midnightKst d) := kstDate_mono h2
    _ = d := kstDate_midnightKst d

/-- C2 counterexample: a series holding one session at 01:00 KST on the
requested date 2024-06-04.  Its KST calendar date equals (hence is `≤`)
the requested date, so the claim requires PREV to return its instant,
but the instant-level filter (`index ≤` midnight KST) finds nothing and
PREV returns NOT_FOUND. -/
theorem prev_resolves_latest_le_midnight_cex :
    kstDate lateBar.ts = daysFromCivil ⟨2024, 6, 4⟩
    ∧ resolveTs "prev" [lateBar] (midnightKst (daysFromCivil ⟨2024, 6, 4⟩)) = none := by
  decide

/-- Witness for C2 (amended): on the scenario series, requesting
2024-06-04 (day 19878) resolves under PREV to the 2024-06-03 session. -/
theorem prev_resolves_latest_le_midnight_w :
    List.Sorted (· < ·) (scenarioSeries.map Bar.ts)
    ∧ resolveTs "prev" scenarioSeries (midnightKst 19878) = some sBar1.ts :=
  ⟨by decide,
   ((prev_resolves_latest_le_midnight scenarioSeries 19878 sBar1.ts (by decide)).1).mpr
     ⟨by decide, by decide, by decide⟩⟩

/-! ### Claim theorems: simple moving average (C5) -/

theorem sma_getElem? (series : List ℚ) (window i : ℕ) (hi : i < series.length) :
    (sma series window)[i]? =
      some (if (rollWindow window i series).length < window then none
            else some ((rollWindow window i series).sum / (window : ℚ))) := by
  unfold sma
  rw [List.getElem?_map, List.getElem?_range hi]
  rfl

/-- C5: for every close series and window length `L ≥ 1`, the SMA output
is `none` at each of the first `L - 1` positions and, from position
`L - 1` on, is exactly the arithmetic mean of the `L` closes at
positions `i - L + 1 .. i`; no partial-window average is produced. -/
theorem sma_warmup_exact (series : List ℚ) (L : ℕ) (hL : 1 ≤ L) :
    (∀ i, i < series.length → i + 1 < L → (sma series L)[i]? = some none)
    ∧ (∀ i, i < series.length → L ≤ i + 1 →
        (sma series L)[i]? =
          some (some (((series.drop (i + 1 - L)).take L).sum / (L : ℚ)))) := by
  constructor
  · intro i hi hiL
    rw [sma_getElem? series L i hi, if_pos (by rw [rollWindow_length L i series hi]; omega)]
  · intro i hi hLi
    rw [sma_getElem? series L i hi, rollWindow_eq_take L i series hLi,
      if_neg (by rw [List.length_take, List.length_drop]; omega)]

/-- Witness for C5 on the series `[1, 3, 5]` with window 2: the first
entry is null and the second is the mean of the first two closes. -/
theorem sma_warmup_exact_w :
    1 ≤ 2
    ∧ (sma [1, 3, 5] 2)[0]? = some none
    ∧ (sma [1, 3, 5] 2)[1]? =
        some (some (((([1, 3, 5] : List ℚ).drop 0).take 2).sum / (2 : ℚ))) :=
  ⟨by decide,
   (sma_warmup_exact [1, 3, 5] 2 (by decide)).1 0 (by decide) (by decide),
   (sma_warmup_exact [1, 3, 5] 2 (by decide)).2 1 (by decide) (by decide)⟩

/-! ### Claim theorems: Wilder RSI (C6, C9) -/

theorem ewmFrom_length (a acc : ℚ) (xs : List ℚ) : (ewmFrom a acc xs).length = xs.length := by
  induction xs generalizing acc with
  | nil => rfl
  | cons v vs ih => simp [ewmFrom, ih]

theorem wilderSmooth_length (a : ℚ) (xs : List ℚ) : (wilderSmooth a xs).length = xs.length := by
  cases xs with
  | nil => rfl
  | cons x xs => simp [wilderSmooth, ewmFrom_length]

theorem deltas_length (close : List ℚ) : (deltas close).length = close.length - 1 := by
  unfold deltas
  rw [List.length_map, List.length_zip, List.length_tail]
  omega

theorem wilderAvgGain_length (close : List ℚ) (length : ℕ) :
    (wilderAvgGain close length).length = close.length - 1 := by
  unfold wilderAvgGain wilderGains
  rw [wilderSmooth_length, List.length_map, deltas_length]

theorem wilderAvgLoss_length (close : List ℚ) (length : ℕ) :
    (wilderAvgLoss close length).length = close.length - 1 := by
  unfold wilderAvgLoss wilderLosses
  rw [wilderSmooth_length, List.length_map, deltas_length]

theorem rsiCore_getElem? (gs : List ℚ) : ∀ (ls : List ℚ) (i : ℕ), i < gs.length →
    i < ls.length →
    (rsiCore gs ls)[i]? =
      some (if ls.getD i 0 = 0 then none
            else some (100 - 100 / (1 + gs.getD i 0 / ls.getD i 0))) := by
  induction gs with
  | nil => intro ls i hg _; simp at hg
  | cons g gs ih =>
    intro ls i hg hl
    cases ls with
    | nil => simp at hl
    | cons l ls =>
      cases i with
      | zero => simp [rsiCore]
      | succ i =>
        simp only [rsiCore, List.getElem?_cons_succ, List.getD_cons_succ]
        exact ih ls i (by simpa using hg) (by simpa using hl)

/-- C6: the RSI entry at position `i + 1` is null exactly when the
Wilder smoothed average loss at the corresponding position is zero (the
`replace(0, pd.NA)` branch), equals `100 - 100/(1 + avg_gain/avg_loss)`
whenever the average loss is nonzero, and the very first output entry is
always null. -/
theorem rsi_null_iff_zero_loss (close : List ℚ) (length : ℕ) (hne : close ≠ [])
    (i : ℕ) (hi : i < (wilderAvgLoss close length).length) :
    (rsi_wilder close length)[0]? = some none
    ∧ ((wilderAvgLoss close length).getD i 0 = 0 →
        (rsi_wilder close length)[i + 1]? = some none)
    ∧ ((wilderAvgLoss close length).getD i 0 ≠ 0 →
        (rsi_wilder close length)[i + 1]? =
          some (some (100 - 100 /
            (1 + (wilderAvgGain close length).getD i 0 /
              (wilderAvgLoss close length).getD i 0)))) := by
  match close, hne with
  | c :: rest, _ =>
    have hg : i < (wilderAvgGain (c :: rest) length).length := by
      rw [wilderAvgGain_length]
      rw [wilderAvgLoss_length] at hi
      exact hi
    have hcore := rsiCore_getElem? (wilderAvgGain (c :: rest) length)
      (wilderAvgLoss (c :: rest) length) i hg hi
    have hrw : rsi_wilder (c :: rest) length =
        none :: rsiCore (wilderAvgGain (c :: rest) length) (wilderAvgLoss (c :: rest) length) :=
      rfl
    rw [hrw]
    refine ⟨by simp, fun hz => ?_, fun hz => ?_⟩
    · rw [List.getElem?_cons_succ, hcore, if_pos hz]
    · rw [List.getElem?_cons_succ, hcore, if_neg hz]

/-- Witness for C6 on the two-session series `[1, 2]` (a pure gain, so
the smoothed average loss is zero and the RSI entry is null). -/
theorem rsi_null_iff_zero_loss_w :
    (([(1 : ℚ), 2] ≠ []) ∧ 0 < (wilderAvgLoss [(1 : ℚ), 2] 14).length)
    ∧ ((rsi_wilder [(1 : ℚ), 2] 14)[0]? = some none
       ∧ ((wilderAvgLoss [(1 : ℚ), 2] 14).getD 0 0 = 0 →
            (rsi_wilder [(1 : ℚ), 2] 14)[0 + 1]? = some none)
       ∧ ((wilderAvgLoss [(1 : ℚ), 2] 14).getD 0 0 ≠ 0 →
            (rsi_wilder [(1 : ℚ), 2] 14)[0 + 1]? =
              some (some (100 - 100 /
                (1 + (wilderAvgGain [(1 : ℚ), 2] 14).getD 0 0 /
                  (wilderAvgLoss [(1 : ℚ), 2] 14).getD 0 0))))) :=
  ⟨⟨by decide, by decide⟩, rsi_null_iff_zero_loss [(1 : ℚ), 2] 14 (by decide) 0 (by decide)⟩

theorem ewmFrom_nonneg (a : ℚ) (ha0 : 0 ≤ a) (ha1 : a ≤ 1) :
    ∀ (acc : ℚ) (xs : List ℚ), 0 ≤ acc → (∀ x ∈ xs, 0 ≤ x) →
      ∀ y ∈ ewmFrom a acc xs, 0 ≤ y := by
  intro acc xs
  induction xs generalizing acc with
  | nil => intro _ _ y hy; simp [ewmFrom] at hy
  | cons v vs ih =>
    intro hacc hxs y hy
    have hv : 0 ≤ v := hxs v (List.mem_cons_self v vs)
    have hacc2 : 0 ≤ acc + a * (v - acc) := by nlinarith
    simp only [ewmFrom, List.mem_cons] at hy
    rcases hy with rfl | hy
    · exact hacc2
    · exact ih (acc + a * (v - acc)) hacc2 (fun x hx => hxs x (List.mem_cons_of_mem _ hx)) y hy

theorem wilderSmooth_nonneg (a : ℚ) (ha0 : 0 ≤ a) (ha1 : a ≤ 1) (xs : List ℚ)
    (hxs : ∀ x ∈ xs, 0 ≤ x) : ∀ y ∈ wilderSmooth a xs, 0 ≤ y := by
  cases xs with
  | nil => intro y hy; simp [wilderSmooth] at hy
  | cons x xs =>
    intro y hy
    have hx : 0 ≤ x := hxs x (List.mem_cons_self x xs)
    simp only [wilderSmooth, List.mem_cons] at hy
    rcases hy with rfl | hy
    · exact hx
    · exact ewmFrom_nonneg a ha0 ha1 x xs hx
        (fun z hz => hxs z (List.mem_cons_of_mem _ hz)) y hy

theorem rsiCore_mem (gs : List ℚ) : ∀ (ls : List ℚ) (o : Option ℚ), o ∈ rsiCore gs ls →
    o = none ∨ ∃ g l, g ∈ gs ∧ l ∈ ls ∧ l ≠ 0 ∧ o = some (100 - 100 / (1 + g / l)) := by
  induction gs with
  | nil => intro ls o ho; cases ls <;> simp [rsiCore] at ho
  | cons g gs ih =>
    intro ls o ho
    cases ls with
    | nil => simp [rsiCore] at ho
    | cons l ls =>
      simp only [rsiCore, List.mem_cons] at ho
      rcases ho with rfl | ho
      · by_cases hl : l = 0
        · left; rw [if_pos hl]
        · right
          exact ⟨g, l, List.mem_cons_self _ _, List.mem_cons_self _ _, hl, by rw [if_neg hl]⟩
      · rcases ih ls o ho with h | ⟨g2, l2, hg2, hl2, hne2, heq2⟩
        · left; exact h
        · right
          exact ⟨g2, l2, List.mem_cons_of_mem _ hg2, List.mem_cons_of_mem _ hl2, hne2, heq2⟩

theorem wilderGains_nonneg (close : List ℚ) : ∀ x ∈ wilderGains close, 0 ≤ x := by
  intro x hx
  rcases List.mem_map.1 hx with ⟨d, _, rfl⟩
  exact le_max_right d 0

theorem wilderLosses_nonneg (close : List ℚ) : ∀ x ∈ wilderLosses close, 0 ≤ x := by
  intro x hx
  rcases List.mem_map.1 hx with ⟨d, _, rfl⟩
  exact le_max_right (-d) 0

/-- C9: for every close series and every smoothing length `≥ 1`, every
defined entry of the Wilder RSI output lies in `[0, 100]`. -/
theorem rsi_bounded (close : List ℚ) (length : ℕ) (hlen : 1 ≤ length) :
    ∀ o ∈ rsi_wilder close length, ∀ v, o = some v → 0 ≤ v ∧ v ≤ 100 := by
  intro o ho v hv
  subst hv
  have ha0 : (0 : ℚ) ≤ 1 / (length : ℚ) := by positivity
  have ha1 : (1 : ℚ) / (length : ℚ) ≤ 1 := by
    apply div_le_one_of_le₀
    · exact_mod_cast hlen
    · positivity
  cases close with
  | nil => simp [rsi_wilder] at ho
  | cons c rest =>
    simp only [rsi_wilder, List.mem_cons] at ho
    rcases ho with h | h
    · cases h
    · rcases rsiCore_mem _ _ _ h with h2 | ⟨g, l, hg, hl, hlne, heq⟩
      · cases h2
      · injection heq with heq2
        have hg0 : 0 ≤ g :=
          wilderSmooth_nonneg _ ha0 ha1 _ (wilderGains_nonneg (c :: rest)) g hg
        have hl0 : 0 ≤ l :=
          wilderSmooth_nonneg _ ha0 ha1 _ (wilderLosses_nonneg (c :: rest)) l hl
        have hlpos : 0 < l := lt_of_le_of_ne hl0 (Ne.symm hlne)
        have hrs : 0 ≤ g / l := div_nonneg hg0 hl0
        have h1rs : (0 : ℚ) < 1 + g / l := by linarith
        have hdivle : 100 / (1 + g / l) ≤ 100 := by
          rw [div_le_iff₀ h1rs]
          nlinarith
        have hdivpos : 0 < 100 / (1 + g / l) := by positivity
        constructor
        · rw [heq2]; linarith
        · rw [heq2]; linarith

theorem rsi_wilder_example : rsi_wilder [1, 2, 1] 14 = [none, none, some (650 / 7)] := by
  norm_num [rsi_wilder, rsiCore, wilderAvgGain, wilderAvgLoss, wilderSmooth, ewmFrom,
    wilderGains, wilderLosses, deltas]

/-- Witness for C9 on the series `[1, 2, 1]` with length 14: the third
entry is defined and equals `650/7 ≈ 92.86`, which lies in `[0, 100]`. -/
theorem rsi_bounded_w :
    1 ≤ 14 ∧ (0 ≤ (650 / 7 : ℚ) ∧ (650 / 7 : ℚ) ≤ 100) :=
  ⟨by decide,
   rsi_bounded [1, 2, 1] 14 (by decide) (some (650 / 7))
     (by rw [rsi_wilder_example]; simp) (650 / 7) rfl⟩

/-! ### Claim theorems: stochastic oscillator (C7) -/

theorem rollingMin_getElem? (L : ℕ) (xs : List ℚ) (i : ℕ) (hi : i < xs.length) :
    (rollingMin L xs)[i]? =
      some (if (rollWindow L i xs).length < L then PF.nan
            else
              match (rollWindow L i xs).min? with
              | some m => PF.val m
              | none => PF.nan) := by
  unfold rollingMin
  rw [List.getElem?_map, List.getElem?_range hi]
  rfl

theorem rollingMax_getElem? (L : ℕ) (xs : List ℚ) (i : ℕ) (hi : i < xs.length) :
    (rollingMax L xs)[i]? =
      some (if (rollWindow L i xs).length < L then PF.nan
            else
              match (rollWindow L i xs).max? with
              | some m => PF.val m
              | none => PF.nan) := by
  unfold rollingMax
  rw [List.getElem?_map, List.getElem?_range hi]
  rfl

theorem rollingMeanPF_getElem? (L : ℕ) (xs : List PF) (i : ℕ) (hi : i < xs.length) :
    (rollingMeanPF L xs)[i]? =
      some (if ((rollWindow L i xs).filter (fun x => ! x.isNan)).length < L then PF.nan
            else (((rollWindow L i xs).filter (fun x => ! x.isNan)).foldl PF.add
                (PF.val 0)).div
              (PF.val ((((rollWindow L i xs).filter (fun x => ! x.isNan)).length : ℚ)))) := by
  unfold rollingMeanPF
  rw [List.getElem?_map, List.getElem?_range hi]
  rfl

theorem percentKraw_getElem? (bars : List Bar) (L i : ℕ) (hi : i < bars.length) :
    (percentKraw bars L)[i]? =
      some ((((PF.val ((bars.map Bar.close).getD i 0)).sub
            ((rollingMin L (bars.map Bar.low)).getD i PF.nan)).div
          (((rollingMax L (bars.map Bar.high)).getD i PF.nan).sub
            ((rollingMin L (bars.map Bar.low)).getD i PF.nan))).mul100) := by
  simp only [percentKraw]
  rw [List.getElem?_map, List.getElem?_range hi]
  rfl

theorem percentKraw_length (bars : List Bar) (L : ℕ) :
    (percentKraw bars L).length = bars.length := by
  simp [percentKraw]

theorem rollingMeanPF_length (L : ℕ) (xs : List PF) :
    (rollingMeanPF L xs).length = xs.length := by
  simp [rollingMeanPF]

theorem min?_spec {w : List ℚ} {m : ℚ} (h : w.min? = some m) : m ∈ w ∧ ∀ b ∈ w, m ≤ b :=
  ⟨List.min?_mem (fun a b => min_choice a b) h,
   fun b hb => (List.le_min?_iff (fun _ _ _ => le_min_iff) h).1 (le_refl m) b hb⟩

theorem max?_spec {w : List ℚ} {m : ℚ} (h : w.max? = some m) : m ∈ w ∧ ∀ b ∈ w, b ≤ m :=
  ⟨List.max?_mem (fun a b => max_choice a b) h,
   fun b hb => (List.max?_le_iff (fun _ _ _ => max_le_iff) h).1 (le_refl m) b hb⟩

theorem rollingMin_getD_short (L : ℕ) (xs : List ℚ) (i : ℕ) (hi : i < xs.length)
    (hshort : (rollWindow L i xs).length < L) :
    (rollingMin L xs).getD i PF.nan = PF.nan := by
  rw [List.getD_eq_getElem?_getD, rollingMin_getElem? L xs i hi, Option.getD_some,
    if_pos hshort]

theorem rollingMax_getD_short (L : ℕ) (xs : List ℚ) (i : ℕ) (hi : i < xs.length)
    (hshort : (rollWindow L i xs).length < L) :
    (rollingMax L xs).getD i PF.nan = PF.nan := by
  rw [List.getD_eq_getElem?_getD, rollingMax_getElem? L xs i hi, Option.getD_some,
    if_pos hshort]

theorem rollingMin_getD_full (L : ℕ) (xs : List ℚ) (i : ℕ) (hi : i < xs.length)
    (hfull : ¬ (rollWindow L i xs).length < L) {m : ℚ}
    (hm : (rollWindow L i xs).min? = some m) :
    (rollingMin L xs).getD i PF.nan = PF.val m := by
  rw [List.getD_eq_getElem?_getD, rollingMin_getElem? L xs i hi, Option.getD_some,
    if_neg hfull, hm]

theorem rollingMax_getD_full (L : ℕ) (xs : List ℚ) (i : ℕ) (hi : i < xs.length)
    (hfull : ¬ (rollWindow L i xs).length < L) {m : ℚ}
    (hm : (rollWindow L i xs).max? = some m) :
    (rollingMax L xs).getD i PF.nan = PF.val m := by
  rw [List.getD_eq_getElem?_getD, rollingMax_getElem? L xs i hi, Option.getD_some,
    if_neg hfull, hm]

theorem rollingMin_getD_val (L : ℕ) (xs : List ℚ) (i : ℕ) (hi : i < xs.length) {m : ℚ}
    (h : (rollingMin L xs).getD i PF.nan = PF.val m) :
    ¬ (rollWindow L i xs).length < L ∧ (rollWindow L i xs).min? = some m := by
  rw [List.getD_eq_getElem?_getD, rollingMin_getElem? L xs i hi, Option.getD_some] at h
  by_cases hlen : (rollWindow L i xs).length < L
  · rw [if_pos hlen] at h
    cases h
  · rw [if_neg hlen] at h
    refine ⟨hlen, ?_⟩
    cases hm2 : (rollWindow L i xs).min? with
    | none => rw [hm2] at h; cases h
    | some m2 =>
      rw [hm2] at h
      injection h with h2
      rw [h2]

theorem rollingMax_getD_val (L : ℕ) (xs : List ℚ) (i : ℕ) (hi : i < xs.length) {m : ℚ}
    (h : (rollingMax L xs).getD i PF.nan = PF.val m) :
    ¬ (rollWindow L i xs).length < L ∧ (rollWindow L i xs).max? = some m := by
  rw [List.getD_eq_getElem?_getD, rollingMax_getElem? L xs i hi, Option.getD_some] at h
  by_cases hlen : (rollWindow L i xs).length < L
  · rw [if_pos hlen] at h
    cases h
  · rw [if_neg hlen] at h
    refine ⟨hlen, ?_⟩
    cases hm2 : (rollWindow L i xs).max? with
    | none => rw [hm2] at h; cases h
    | some m2 =>
      rw [hm2] at h
      injection h with h2
      rw [h2]

theorem PF.sub_eq_val {x y : PF} {q : ℚ} (h : PF.sub x y = PF.val q) :
    ∃ a b, x = PF.val a ∧ y = PF.val b ∧ a - b = q := by
  cases x with
  | val a =>
    cases y with
    | val b =>
      have h2 : a - b = q := by injection h
      exact ⟨a, b, rfl, rfl, h2⟩
    | nan => cases h
    | pinf => cases h
    | ninf => cases h
  | nan => cases y <;> cases h
  | pinf => cases y <;> cases h
  | ninf => cases y <;> cases h

theorem closes_getD (bars : List Bar) (i : ℕ) (hi : i < bars.length) :
    (bars.map Bar.close).getD i 0 = bars[i].close := by
  rw [List.getD_eq_getElem?_getD, List.getElem?_map, List.getElem?_eq_getElem hi]
  rfl

theorem rollWindow_extrema (bars : List Bar) (L i : ℕ) (hL : 1 ≤ L) (hi : i < bars.length)
    {mn mx : ℚ}
    (hmn : (rollWindow L i (bars.map Bar.low)).min? = some mn)
    (hmx : (rollWindow L i (bars.map Bar.high)).max? = some mx) :
    mn ≤ bars[i].low ∧ bars[i].high ≤ mx := by
  constructor
  · apply (min?_spec hmn).2
    rw [rollWindow_map]
    exact List.mem_map_of_mem Bar.low (getElem_mem_rollWindow L i bars hL hi)
  · apply (max?_spec hmx).2
    rw [rollWindow_map]
    exact List.mem_map_of_mem Bar.high (getElem_mem_rollWindow L i bars hL hi)

theorem percentKraw_entry_cases (bars : List Bar) (L i : ℕ) (hL : 1 ≤ L)
    (hi : i < bars.length)
    (hinv : ∀ b ∈ bars, b.low ≤ b.close ∧ b.close ≤ b.high) :
    (percentKraw bars L)[i]? = some PF.nan
    ∨ ∃ q, (percentKraw bars L)[i]? = some (PF.val q) ∧ 0 ≤ q ∧ q ≤ 100 := by
  have hlow : i < (bars.map Bar.low).length := by rw [List.length_map]; exact hi
  have hhigh : i < (bars.map Bar.high).length := by rw [List.length_map]; exact hi
  rw [percentKraw_getElem? bars L i hi]
  by_cases hshort : (rollWindow L i (bars.map Bar.low)).length < L
  · left
    have hshort2 : (rollWindow L i (bars.map Bar.high)).length < L := by
      rw [rollWindow_length _ _ _ hhigh]
      rw [rollWindow_length _ _ _ hlow] at hshort
      exact hshort
    rw [rollingMin_getD_short L _ i hlow hshort, rollingMax_getD_short L _ i hhigh hshort2]
    rfl
  · have hfull2 : ¬ (rollWindow L i (bars.map Bar.high)).length < L := by
      rw [rollWindow_length _ _ _ hhigh]
      rw [rollWindow_length _ _ _ hlow] at hshort
      exact hshort
    have hne : rollWindow L i (bars.map Bar.low) ≠ [] := by
      intro h0
      rw [h0] at hshort
      exact hshort (by simpa using hL)
    have hne2 : rollWindow L i (bars.map Bar.high) ≠ [] := by
      intro h0
      rw [h0] at hfull2
      exact hfull2 (by simpa using hL)
    obtain ⟨mn, hmn⟩ : ∃ mn, (rollWindow L i (bars.map Bar.low)).min? = some mn := by
      cases hc : (rollWindow L i (bars.map Bar.low)).min? with
      | none => exact absurd (List.min?_eq_none_iff.1 hc) hne
      | some m => exact ⟨m, rfl⟩
    obtain ⟨mx, hmx⟩ : ∃ mx, (rollWindow L i (bars.map Bar.high)).max? = some mx := by
      cases hc : (rollWindow L i (bars.map Bar.high)).max? with
      | none => exact absurd (List.max?_eq_none_iff.1 hc) hne2
      | some m => exact ⟨m, rfl⟩
    rw [rollingMin_getD_full L _ i hlow hshort hmn,
      rollingMax_getD_full L _ i hhigh hfull2 hmx, closes_getD bars i hi]
    obtain ⟨hmnlow, hhighmx⟩ := rollWindow_extrema bars L i hL hi hmn hmx
    obtain ⟨hlc, hch⟩ := hinv bars[i] (List.getElem_mem hi)
    have hcmn : mn ≤ bars[i].close := le_trans hmnlow hlc
    have hcmx : bars[i].close ≤ mx := le_trans hch hhighmx
    simp only [PF.sub]
    by_cases hz : mx - mn = 0
    · left
      have hc0 : bars[i].close - mn = 0 := by linarith
      have hdiv : PF.div (PF.val (bars[i].close - mn)) (PF.val (mx - mn)) = PF.nan := by
        simp only [PF.div, if_pos hz, hc0]
        norm_num
      rw [hdiv]
      rfl
    · right
      have hmxmn : 0 < mx - mn := by
        rcases eq_or_lt_of_le (le_trans hcmn hcmx) with heq | hlt
        · exact absurd (by rw [← heq]; ring) hz
        · linarith
      refine ⟨(bars[i].close - mn) / (mx - mn) * 100, ?_, ?_, ?_⟩
      · simp only [PF.div, if_neg hz, PF.mul100]
      · apply mul_nonneg (div_nonneg (by linarith) (le_of_lt hmxmn)) (by norm_num)
      · have hle1 : (bars[i].close - mn) / (mx - mn) ≤ 1 := by
          rw [div_le_one hmxmn]
          linarith
        nlinarith

theorem percentKraw_val_bounds (bars : List Bar) (L : ℕ) (hL : 1 ≤ L)
    (hinv : ∀ b ∈ bars, b.low ≤ b.close ∧ b.close ≤ b.high) :
    ∀ q : ℚ, PF.val q ∈ percentKraw bars L → 0 ≤ q ∧ q ≤ 100 := by
  intro q hq
  rcases List.mem_iff_getElem?.1 hq with ⟨i, hi⟩
  have hlen : i < bars.length := by
    rcases List.getElem?_eq_some_iff.1 hi with ⟨h, _⟩
    rw [percentKraw_length] at h
    exact h
  rcases percentKraw_entry_cases bars L i hL hlen hinv with h | ⟨q2, hq2, hb1, hb2⟩
  · rw [h] at hi
    injection hi with h2
    cases h2
  · rw [hq2] at hi
    injection hi with h2
    injection h2 with h3
    rw [← h3]
    exact ⟨hb1, hb2⟩

theorem percentKraw_val_or_nan (bars : List Bar) (L : ℕ) (hL : 1 ≤ L)
    (hinv : ∀ b ∈ bars, b.low ≤ b.close ∧ b.close ≤ b.high) :
    ∀ x ∈ percentKraw bars L, x = PF.nan ∨ ∃ q, x = PF.val q := by
  intro x hx
  rcases List.mem_iff_getElem?.1 hx with ⟨i, hi⟩
  have hlen : i < bars.length := by
    rcases List.getElem?_eq_some_iff.1 hi with ⟨h, _⟩
    rw [percentKraw_length] at h
    exact h
  rcases percentKraw_entry_cases bars L i hL hlen hinv with h | ⟨q2, hq2, _, _⟩
  · rw [h] at hi
    injection hi with h2
    left
    exact h2.symm
  · rw [hq2] at hi
    injection hi with h2
    right
    exact ⟨q2, h2.symm⟩

theorem rollingMeanPF_nan_of_mem (L : ℕ) (xs : List PF) (i : ℕ) (hi : i < xs.length)
    (h : PF.nan ∈ rollWindow L i xs) : (rollingMeanPF L xs)[i]? = some PF.nan := by
  have hlt : ((rollWindow L i xs).filter (fun x => ! x.isNan)).length <
      (rollWindow L i xs).length :=
    List.length_filter_lt_length_iff_exists.2 ⟨PF.nan, h, by simp [PF.isNan]⟩
  have hle := rollWindow_length_le L i xs
  rw [rollingMeanPF_getElem? L xs i hi, if_pos (by omega)]

theorem foldl_add_val (l : List PF) : ∀ a : ℚ, (∀ x ∈ l, ∃ q, x = PF.val q) →
    ∃ s, l.foldl PF.add (PF.val a) = PF.val s := by
  induction l with
  | nil => intro a _; exact ⟨a, rfl⟩
  | cons x xs ih =>
    intro a hx
    rcases hx x (List.mem_cons_self _ _) with ⟨q, rfl⟩
    have h2 := ih (a + q) (fun z hz => hx z (List.mem_cons_of_mem _ hz))
    simpa [List.foldl_cons, PF.add] using h2

theorem rollingMeanPF_val_or_nan (L : ℕ) (xs : List PF)
    (hxs : ∀ x ∈ xs, x = PF.nan ∨ ∃ q, x = PF.val q) :
    ∀ y ∈ rollingMeanPF L xs, y = PF.nan ∨ ∃ q, y = PF.val q := by
  intro y hy
  rcases List.mem_iff_getElem?.1 hy with ⟨i, hi⟩
  have hilen : i < xs.length := by
    rcases List.getElem?_eq_some_iff.1 hi with ⟨h, _⟩
    rw [rollingMeanPF_length] at h
    exact h
  rw [rollingMeanPF_getElem? L xs i hilen] at hi
  injection hi with hi2
  by_cases hshort : ((rollWindow L i xs).filter (fun x => ! x.isNan)).length < L
  · rw [if_pos hshort] at hi2
    left
    exact hi2.symm
  · rw [if_neg hshort] at hi2
    have hvalid : ∀ x ∈ (rollWindow L i xs).filter (fun x => ! x.isNan), ∃ q, x = PF.val q := by
      intro x hx
      have hx2 := List.mem_filter.1 hx
      rcases hxs x (mem_of_mem_rollWindow hx2.1) with hnan | hval
      · rw [hnan] at hx2
        simp [PF.isNan] at hx2
      · exact hval
    obtain ⟨s, hs⟩ := foldl_add_val _ 0 hvalid
    rw [hs] at hi2
    by_cases hc : ((rollWindow L i xs).filter (fun x => ! x.isNan)).length = 0
    · left
      rw [← hi2]
      have hnil : (rollWindow L i xs).filter (fun x => ! x.isNan) = [] :=
        List.length_eq_zero.1 hc
      rw [hnil] at hs
      injection hs with hs0
      simp only [PF.div, hc, Nat.cast_zero, if_pos rfl, ← hs0]
      norm_num
    · right
      have hcq : (((rollWindow L i xs).filter (fun x => ! x.isNan)).length : ℚ) ≠ 0 := by
        exact_mod_cast hc
      refine ⟨s / (((rollWindow L i xs).filter (fun x => ! x.isNan)).length : ℚ), ?_⟩
      rw [← hi2]
      simp only [PF.div, if_neg hcq]

/-- C7: with the per-bar invariant `low ≤ close ≤ high` and a window
length `≥ 1`: every defined raw %K entry lies in `[0, 100]`; the raw %K
entry is NaN (pandas null) whenever the rolling high−low range is
exactly zero; a NaN raw entry makes every smoothed %K value whose window
contains it NaN, and likewise from %K to %D; and neither smoothed output
ever holds an infinity — every entry is finite or NaN. -/
theorem stoch_bounded_null_safe (bars : List Bar) (L sk sd : ℕ) (hL : 1 ≤ L)
    (hinv : ∀ b ∈ bars, b.low ≤ b.close ∧ b.close ≤ b.high) :
    (∀ q : ℚ, PF.val q ∈ percentKraw bars L → 0 ≤ q ∧ q ≤ 100)
    ∧ (∀ i, i < bars.length →
        ((rollingMax L (bars.map Bar.high)).getD i PF.nan).sub
            ((rollingMin L (bars.map Bar.low)).getD i PF.nan) = PF.val 0 →
          (percentKraw bars L)[i]? = some PF.nan)
    ∧ (∀ i, i < bars.length → PF.nan ∈ rollWindow sk i (percentKraw bars L) →
        (stochastic_oscillator bars L sk sd).1[i]? = some PF.nan)
    ∧ (∀ i, i < bars.length →
        PF.nan ∈ rollWindow sd i (stochastic_oscillator bars L sk sd).1 →
        (stochastic_oscillator bars L sk sd).2[i]? = some PF.nan)
    ∧ (∀ y ∈ (stochastic_oscillator bars L sk sd).1, y = PF.nan ∨ ∃ q, y = PF.val q)
    ∧ (∀ y ∈ (stochastic_oscillator bars L sk sd).2, y = PF.nan ∨ ∃ q, y = PF.val q) := by
  have hk : (stochastic_oscillator bars L sk sd).1 = rollingMeanPF sk (percentKraw bars L) :=
    rfl
  have hd : (stochastic_oscillator bars L sk sd).2 =
      rollingMeanPF sd (rollingMeanPF sk (percentKraw bars L)) := rfl
  have hkclass : ∀ y ∈ rollingMeanPF sk (percentKraw bars L),
      y = PF.nan ∨ ∃ q, y = PF.val q :=
    rollingMeanPF_val_or_nan sk _ (percentKraw_val_or_nan bars L hL hinv)
  refine ⟨percentKraw_val_bounds bars L hL hinv, ?_, ?_, ?_, ?_, ?_⟩
  · intro i hi hsub
    have hlow : i < (bars.map Bar.low).length := by rw [List.length_map]; exact hi
    have hhigh : i < (bars.map Bar.high).length := by rw [List.length_map]; exact hi
    obtain ⟨a, b, hxa, hyb, hab⟩ := PF.sub_eq_val hsub
    obtain ⟨hfullmx, hmx⟩ := rollingMax_getD_val L _ i hhigh hxa
    obtain ⟨hfullmn, hmn⟩ := rollingMin_getD_val L _ i hlow hyb
    obtain ⟨hmnlow, hhighmx⟩ := rollWindow_extrema bars L i hL hi hmn hmx
    obtain ⟨hlc, hch⟩ := hinv bars[i] (List.getElem_mem hi)
    have hc0 : bars[i].close - b = 0 := by linarith
    rw [percentKraw_getElem? bars L i hi, hxa, hyb, closes_getD bars i hi]
    simp only [PF.sub]
    have hdiv : PF.div (PF.val (bars[i].close - b)) (PF.val (a - b)) = PF.nan := by
      simp only [PF.div, if_pos hab, hc0]
      norm_num
    rw [hdiv]
    rfl
  · intro i hi hmem
    rw [hk]
    exact rollingMeanPF_nan_of_mem sk _ i (by rw [percentKraw_length]; exact hi) hmem
  · intro i hi hmem
    rw [hd]
    rw [hk] at hmem
    apply rollingMeanPF_nan_of_mem sd _ i _ hmem
    rw [rollingMeanPF_length, percentKraw_length]
    exact hi
  · rw [hk]
    exact hkclass
  · rw [hd]
    exact rollingMeanPF_val_or_nan sd _ hkclass

theorem percentKraw_wBars : percentKraw wBars 1 = [PF.val 25] := by
  norm_num [percentKraw, rollingMin, rollingMax, rollWindow, PF.sub, PF.div, PF.mul100,
    List.range_succ, wBars]

/-- Witness for C7 on the one-bar series `wBars` with window 1: its raw
%K entry 25 lies in `[0, 100]`. -/
theorem stoch_bounded_null_safe_w :
    (1 ≤ 1 ∧ (∀ b ∈ wBars, b.low ≤ b.close ∧ b.close ≤ b.high))
    ∧ (0 ≤ (25 : ℚ) ∧ (25 : ℚ) ≤ 100) :=
  ⟨⟨by decide, by
      intro b hb
      simp only [wBars, List.mem_singleton] at hb
      subst hb
      norm_num⟩,
   (stoch_bounded_null_safe wBars 1 3 3 (by decide) (by
      intro b hb
      simp only [wBars, List.mem_singleton] at hb
      subst hb
      norm_num)).1 25 (by rw [percentKraw_wBars]; simp)⟩

/-! ### Claim theorems: result-row shape and the yield field (C3, C4, C10) -/

/-- C3 (amended): no emitted record — error row or success row — carries
an above-SMA ("Price>SMA") field; the `close > sma` boolean is never
computed or emitted, and the only SMA-relative output is the gap
percentage column. -/
theorem no_above_sma_field (ticker : String) (reqDate : CivilDate) (p : Params)
    (price tnx ixic : List Bar) :
    "Price>SMA" ∉ (compute_for ticker reqDate p price tnx ixic).map Prod.fst := by
  intro h
  unfold compute_for at h
  by_cases hemp : price.isEmpty = true
  · rw [if_pos hemp] at h
    simp only [List.map_cons, List.map_nil, List.mem_cons, List.not_mem_nil, or_false] at h
    rcases h with h | h | h <;> exact absurd h (by decide)
  · rw [if_neg hemp] at h
    cases hres : resolveTs p.align price (midnightKst (daysFromCivil reqDate)) with
    | none =>
      simp only [hres, List.map_cons, List.map_nil, List.mem_cons, List.not_mem_nil,
        or_false] at h
      rcases h with h | h | h <;> exact absurd h (by decide)
    | some ts =>
      simp only [hres, List.map_cons, List.map_nil, List.mem_cons, List.not_mem_nil,
        or_false] at h
      rcases h with h | h | h | h | h | h | h | h | h | h | h | h
      · exact absurd h (by decide)
      · exact absurd h (by decide)
      · exact absurd h (by decide)
      · exact absurd h (by decide)
      · exact append_head_ne "RSI_" _ "Price>SMA" 'R' 'P' (by decide) (by decide)
          (by decide) h.symm
      · exact append_head_ne "Stoch%K(" _ "Price>SMA" 'S' 'P' (by decide) (by decide)
          (by decide) h.symm
      · exact append_head_ne "Stoch%D(" _ "Price>SMA" 'S' 'P' (by decide) (by decide)
          (by decide) h.symm
      · exact append_head_ne "SMA_" _ "Price>SMA" 'S' 'P' (by decide) (by decide)
          (by decide) h.symm
      · exact absurd h (by decide)
      · exact absurd h (by decide)
      · exact absurd h (by decide)
      · exact absurd h (by decide)

/-- C3 counterexample: the record for 2024-06-03 is emitted successfully
(empty Error) with the SMA undefined, yet looking up "Price>SMA" finds
no field at all — contradicting the claim that every successful record
contains an above-SMA field (with value or null). -/
theorem no_above_sma_field_cex :
    (compute_for "AAPL" ⟨2024, 6, 3⟩ defaultParams [sBar1] [] []).lookup "Error" =
        some (CellVal.str "")
    ∧ (compute_for "AAPL" ⟨2024, 6, 3⟩ defaultParams [sBar1] [] []).lookup "Price>SMA" =
        none := by
  decide

/-- Witness for C3 (amended) at a concrete successful record. -/
theorem no_above_sma_field_w :
    "Price>SMA" ∉
      (compute_for "AAPL" ⟨2024, 6, 3⟩ defaultParams [sBar1] [] []).map Prod.fst :=
  no_above_sma_field "AAPL" ⟨2024, 6, 3⟩ defaultParams [sBar1] [] []

/-- C4 (amended): in a successfully resolved record the RSI, Stoch%K,
Stoch%D and SMA column headers are parameterized by the configured
window lengths, but the gap-from-SMA header is the fixed string
"Gap_from_SMA200_%" regardless of the configured `sma_window`. -/
theorem headers_param_except_gap (ticker : String) (reqDate : CivilDate) (p : Params)
    (price tnx ixic : List Bar) (ts : ℤ)
    (hp : price.isEmpty = false)
    (hr : resolveTs p.align price (midnightKst (daysFromCivil reqDate)) = some ts) :
    (compute_for ticker reqDate p price tnx ixic).map Prod.fst =
      ["Ticker", "RequestedDate", "ReportDate", "Close",
       "RSI_" ++ toString p.rsi_len,
       "Stoch%K(" ++ toString p.stoch_len ++ "," ++ toString p.smooth_k ++ ")",
       "Stoch%D(" ++ toString p.smooth_d ++ ")",
       "SMA_" ++ toString p.sma_window,
       "Gap_from_SMA200_%", "US10Y_Yield_%", "NASDAQ_Drawdown_%", "Error"] := by
  unfold compute_for
  rw [if_neg (by simp [hp]), hr]
  rfl

/-- C4 counterexample: with `sma_window = 50` the record is emitted
successfully and has the parameterized "SMA_50" column, yet the gap
column is still the fixed "Gap_from_SMA200_%" — no "Gap_from_SMA50_%"
column exists, so the gap header does not reflect the configured
window. -/
theorem headers_param_except_gap_cex :
    (compute_for "AAPL" ⟨2024, 6, 3⟩ smaFiftyParams [sBar1] [] []).lookup "Error" =
        some (CellVal.str "")
    ∧ "SMA_50" ∈
        (compute_for "AAPL" ⟨2024, 6, 3⟩ smaFiftyParams [sBar1] [] []).map Prod.fst
    ∧ "Gap_from_SMA50_%" ∉
        (compute_for "AAPL" ⟨2024, 6, 3⟩ smaFiftyParams [sBar1] [] []).map Prod.fst
    ∧ "Gap_from_SMA200_%" ∈
        (compute_for "AAPL" ⟨2024, 6, 3⟩ smaFiftyParams [sBar1] [] []).map Prod.fst := by
  decide

/-- Witness for C4 (amended) at `sma_window = 50`. -/
theorem headers_param_except_gap_w :
    ([sBar1].isEmpty = false
      ∧ resolveTs smaFiftyParams.align [sBar1]
          (midnightKst (daysFromCivil ⟨2024, 6, 3⟩)) = some sBar1.ts)
    ∧ (compute_for "AAPL" ⟨2024, 6, 3⟩ smaFiftyParams [sBar1] [] []).map Prod.fst =
      ["Ticker", "RequestedDate", "ReportDate", "Close",
       "RSI_" ++ toString smaFiftyParams.rsi_len,
       "Stoch%K(" ++ toString smaFiftyParams.stoch_len ++ "," ++
         toString smaFiftyParams.smooth_k ++ ")",
       "Stoch%D(" ++ toString smaFiftyParams.smooth_d ++ ")",
       "SMA_" ++ toString smaFiftyParams.sma_window,
       "Gap_from_SMA200_%", "US10Y_Yield_%", "NASDAQ_Drawdown_%", "Error"] :=
  ⟨⟨by decide, by decide⟩,
   headers_param_except_gap "AAPL" ⟨2024, 6, 3⟩ smaFiftyParams [sBar1] [] [] sBar1.ts
     (by decide) (by decide)⟩

/-- C10: for every successfully resolved record, the US10Y_Yield_% field
is null exactly when the yield resolver returns nothing, and otherwise
is the string `f"{v:.2f}%"` built from the fetched close `v` — a string,
unlike the numeric indicator cells — and the reported value `v` is
always literally one of the fetched closes: no rescaling (in particular
no division by 10) is applied. -/
theorem us10y_string_unscaled (ticker : String) (reqDate : CivilDate) (p : Params)
    (price tnx ixic : List Bar) (ts : ℤ)
    (hp : price.isEmpty = false)
    (hr : resolveTs p.align price (midnightKst (daysFromCivil reqDate)) = some ts) :
    (compute_for ticker reqDate p price tnx ixic).lookup "US10Y_Yield_%" =
      some (match us10y_yield_at_kst tnx ts with
            | some v => CellVal.str (fmt2 v ++ "%")
            | none => CellVal.null)
    ∧ ∀ v, us10y_yield_at_kst tnx ts = some v → v ∈ tnx.map Bar.close := by
  constructor
  · have l1 : (("US10Y_Yield_%" : String) == "Ticker") = false := by decide
    have l2 : (("US10Y_Yield_%" : String) == "RequestedDate") = false := by decide
    have l3 : (("US10Y_Yield_%" : String) == "ReportDate") = false := by decide
    have l4 : (("US10Y_Yield_%" : String) == "Close") = false := by decide
    have l5 : (("US10Y_Yield_%" : String) == "Gap_from_SMA200_%") = false := by decide
    have l6 : (("US10Y_Yield_%" : String) == "US10Y_Yield_%") = true := by decide
    have e1 : (("US10Y_Yield_%" : String) == "RSI_" ++ toString p.rsi_len) = false :=
      beq_eq_false_iff_ne.mpr fun hh =>
        append_head_ne "RSI_" (toString p.rsi_len) "US10Y_Yield_%" 'R' 'U'
          (by decide) (by decide) (by decide) hh.symm
    have e2 : (("US10Y_Yield_%" : String) ==
        "Stoch%K(" ++ toString p.stoch_len ++ "," ++ toString p.smooth_k ++ ")") = false :=
      beq_eq_false_iff_ne.mpr fun hh =>
        append_head_ne "Stoch%K(" (toString p.stoch_len ++ "," ++ toString p.smooth_k ++ ")")
          "US10Y_Yield_%" 'S' 'U' (by decide) (by decide) (by decide)
          (by simp only [← String.append_assoc]; exact hh.symm)
    have e3 : (("US10Y_Yield_%" : String) ==
        "Stoch%D(" ++ toString p.smooth_d ++ ")") = false :=
      beq_eq_false_iff_ne.mpr fun hh =>
        append_head_ne "Stoch%D(" (toString p.smooth_d ++ ")") "US10Y_Yield_%" 'S' 'U'
          (by decide) (by decide) (by decide)
          (by simp only [← String.append_assoc]; exact hh.symm)
    have e4 : (("US10Y_Yield_%" : String) == "SMA_" ++ toString p.sma_window) = false :=
      beq_eq_false_iff_ne.mpr fun hh =>
        append_head_ne "SMA_" (toString p.sma_window) "US10Y_Yield_%" 'S' 'U'
          (by decide) (by decide) (by decide) hh.symm
    unfold compute_for
    rw [if_neg (by simp [hp]), hr]
    simp only [List.lookup, l1, l2, l3, l4, l5, l6, e1, e2, e3, e4]
  · intro v hv
    unfold us10y_yield_at_kst at hv
    by_cases hemp : tnx.isEmpty
    · rw [if_pos hemp] at hv
      cases hv
    · rw [if_neg hemp] at hv
      rcases List.mem_map.1 (List.mem_of_getLast?_eq_some hv) with ⟨b, hb, rfl⟩
      exact List.mem_map_of_mem _ (List.mem_filter.1 hb).1

/-- Witness for C10: a successful record with one fetched yield bar
closing at 4.321 on 2024-06-03. -/
theorem us10y_string_unscaled_w :
    ([sBar1].isEmpty = false
      ∧ resolveTs defaultParams.align [sBar1]
          (midnightKst (daysFromCivil ⟨2024, 6, 3⟩)) = some sBar1.ts)
    ∧ ((compute_for "AAPL" ⟨2024, 6, 3⟩ defaultParams [sBar1] [tnxBar] []).lookup
          "US10Y_Yield_%" =
        some (match us10y_yield_at_kst [tnxBar] sBar1.ts with
              | some v => CellVal.str (fmt2 v ++ "%")
              | none => CellVal.null)
       ∧ ∀ v, us10y_yield_at_kst [tnxBar] sBar1.ts = some v → v ∈ [tnxBar].map Bar.close) :=
  ⟨⟨by decide, by decide⟩,
   us10y_string_unscaled "AAPL" ⟨2024, 6, 3⟩ defaultParams [sBar1] [tnxBar] [] sBar1.ts
     (by decide) (by decide)⟩

end IndicatorLookup
